import Mathlib

/-!
Verification development for the PayOpti vendor-payment optimisation engine
(`pay_opti.py`).  Every definition below is a shallow embedding of the
corresponding Python function; money and rates are modelled as rationals,
calendar dates as integer day counts.
-/

namespace PayOpti

/-! ## Deterministic fallback payment-terms parsing

Embedding of `AIIntegrator._fallback_payment_terms_parse`
(`src/pay_opti.py:230-251`); the simple-terms fallback method of
`PayOptiSystem` (`src/pay_opti.py:493-513`) performs the identical
computation.

The Python code runs two `re.search` calls over the lowercased input:

  discount pattern : `(\d+(?:\.\d+)?)%?\s*[\/within]*\s*(\d+)`
  net pattern      : `net\s*(\d+)|(\d+)\s*days?`

We model Python's regex engine semantics exactly for these two patterns:
leftmost match position wins; within one position, greedy quantifiers
prefer consuming more and backtrack; alternatives are tried left to right.
Each combinator below produces the candidate continuations in the
engine's preference order and `firstSome` commits to the first success.
-/

/-- Python `\d` on the ASCII inputs at hand. -/
def isDigitChar (c : Char) : Bool := c.isDigit

/-- Python `\s` (space, tab, newline, carriage return, vertical tab, form feed). -/
def isSpaceChar (c : Char) : Bool :=
  c = ' ' || c = '\t' || c = '\n' || c = '\r' || c = '\x0b' || c = '\x0c'

/-- The character class `[\/within]`, i.e. any of `/ w i t h n`. -/
def inDiscountClass (c : Char) : Bool :=
  c = '/' || c = 'w' || c = 'i' || c = 't' || c = 'h' || c = 'n'

/-- First success of `f` over candidates in preference order. -/
def firstSome {α β : Type} (f : α → Option β) : List α → Option β
  | [] => none
  | a :: as =>
    match f a with
    | some b => some b
    | none => firstSome f as

/-- Continuations of a greedy `p*`: suffixes after consuming `k` matching
characters, longest consumption first (the backtracking order). -/
def starCands (p : Char → Bool) : List Char → List (List Char)
  | [] => [[]]
  | c :: cs => if p c then starCands p cs ++ [c :: cs] else [c :: cs]

/-- Continuations of a greedy optional single character `x?`:
present first, then absent. -/
def optCand (p : Char → Bool) : List Char → List (List Char)
  | [] => [[]]
  | c :: cs => if p c then [cs, c :: cs] else [c :: cs]

/-- Continuations of a greedy capturing `p+`: pairs (captured, rest) with at
least one character, longest capture first (the backtracking order). -/
def plusCandsCap (p : Char → Bool) : List Char → List (List Char × List Char)
  | [] => []
  | c :: cs =>
    if p c then
      (plusCandsCap p cs).map (fun pr => (c :: pr.1, pr.2)) ++ [([c], cs)]
    else []

/-- Continuations of the greedy optional fraction `(?:\.\d+)?`:
pairs (consumed characters, rest); present with the longest digit run
first, then absent. -/
def fracCands : List Char → List (List Char × List Char)
  | '.' :: cs =>
    ((plusCandsCap isDigitChar cs).map (fun pr => ('.' :: pr.1, pr.2))) ++ [([], '.' :: cs)]
  | t => [([], t)]

/-- Match the discount pattern `(\d+(?:\.\d+)?)%?\s*[\/within]*\s*(\d+)`
anchored at the start of `t`, returning the two captured groups. -/
def matchDiscountAt (t : List Char) : Option (List Char × List Char) :=
  firstSome (fun p1 =>
    firstSome (fun p2 =>
      firstSome (fun t3 =>
        firstSome (fun t4 =>
          firstSome (fun t5 =>
            firstSome (fun t6 =>
              match plusCandsCap isDigitChar t6 with
              | (cap2, _) :: _ => some (p1.1 ++ p2.1, cap2)
              | [] => none)
              (starCands isSpaceChar t5))
            (starCands inDiscountClass t4))
          (starCands isSpaceChar t3))
        (optCand (fun c => c = '%') p2.2))
      (fracCands p1.2))
    (plusCandsCap isDigitChar t)

/-- First alternative `net\s*(\d+)` of the net pattern, anchored at `t`. -/
def matchNetLhs (t : List Char) : Option (List Char) :=
  match t with
  | 'n' :: 'e' :: 't' :: rest =>
    firstSome (fun t1 =>
      match plusCandsCap isDigitChar t1 with
      | (cap, _) :: _ => some cap
      | [] => none)
      (starCands isSpaceChar rest)
  | _ => none

/-- Second alternative `(\d+)\s*days?` of the net pattern, anchored at `t`
(the trailing `s?` always succeeds and is irrelevant to the capture). -/
def matchNetRhs (t : List Char) : Option (List Char) :=
  firstSome (fun pr =>
    firstSome (fun t1 =>
      match t1 with
      | 'd' :: 'a' :: 'y' :: _ => some pr.1
      | _ => none)
      (starCands isSpaceChar pr.2))
    (plusCandsCap isDigitChar t)

/-- Match the net pattern `net\s*(\d+)|(\d+)\s*days?` anchored at `t`;
alternatives are tried left to right.  The Python caller reads
`group(1) or group(2)`, i.e. whichever capture the matching alternative
produced, so we return just the captured digits. -/
def matchNetAt (t : List Char) : Option (List Char) :=
  match matchNetLhs t with
  | some cap => some cap
  | none => matchNetRhs t

/-- `re.search` driver: try the anchored matcher at each start position,
left to right (leftmost match wins). -/
def searchAt {β : Type} (f : List Char → Option β) : List Char → Option β
  | [] => f []
  | c :: cs =>
    match f (c :: cs) with
    | some r => some r
    | none => searchAt f cs

/-- Python `int` on a captured digit string. -/
def digitsToNat (cs : List Char) : ℕ :=
  cs.foldl (fun n c => n * 10 + (c.toNat - '0'.toNat)) 0

/-- Python `float` on a captured string of digits with an optional single
decimal point (the only shape group 1 can take). -/
def decimalToRat (cs : List Char) : ℚ :=
  let intPart := cs.takeWhile (fun c => c ≠ '.')
  match cs.dropWhile (fun c => c ≠ '.') with
  | [] => (digitsToNat intPart : ℚ)
  | _ :: frac => (digitsToNat intPart : ℚ) + (digitsToNat frac : ℚ) / (10 ^ frac.length : ℚ)

/-- The `PaymentTerms` record (`src/pay_opti.py` dataclass `PaymentTerms`). -/
structure PaymentTerms where
  payment_type : String
  discount_rate : ℚ
  discount_days : ℤ
  net_days : ℤ
  late_fee_rate : ℚ
  confidence : ℚ
deriving DecidableEq, Repr

/-- Embedding of `AIIntegrator._fallback_payment_terms_parse`
(`src/pay_opti.py:230-251`): lowercase the raw terms, run the two regex
searches, and assemble the record with the documented defaults. -/
def fallbackPaymentTermsParse (raw : String) : PaymentTerms :=
  let terms := raw.data.map Char.toLower
  let discount := searchAt matchDiscountAt terms
  let net := searchAt matchNetAt terms
  let dr : ℚ :=
    match discount with
    | some g => decimalToRat g.1
    | none => 0
  let dd : ℤ :=
    match discount with
    | some g => (digitsToNat g.2 : ℤ)
    | none => 0
  let nd : ℤ :=
    match net with
    | some g => (digitsToNat g : ℤ)
    | none => 30
  { payment_type := if 0 < dr then "early_discount" else "net_term"
    discount_rate := dr
    discount_days := dd
    net_days := nd
    late_fee_rate := 0
    confidence := 7/10 }

/-! ## Vendor relationship scoring (repayment component)

Embedding of the repayment-score lines of `PayOptiSystem.calculate_vrs`
(`src/pay_opti.py:544-546` and `553-556`).  A vendor payment history is a
dictionary that may lack the `transaction_summary` key (and a missing
vendor id yields the empty dictionary, hence also no summary); inside the
summary either count may be absent.  The source reads the
`invoices_paid_on_time` count with default 0 and the `total_invoices`
count with default 1, then computes
`repayment_score = (on_time / total) * 100 if total > 0 else 50`.
-/

/-- The `transaction_summary` mapping with its two optional counts. -/
structure TransactionSummary where
  invoices_paid_on_time : Option ℚ
  total_invoices : Option ℚ
deriving DecidableEq, Repr

/-- A vendor payment-history record; `transaction_summary` may be absent
(in particular it is absent when the vendor id is missing entirely, since
the payment-history lookup then yields the empty dictionary). -/
structure PaymentHistory where
  transaction_summary : Option TransactionSummary
deriving DecidableEq, Repr

/-- The `invoices_paid_on_time` count of the summary, default 0. -/
def onTimeOf (ph : PaymentHistory) : ℚ :=
  ((ph.transaction_summary.getD ⟨none, none⟩).invoices_paid_on_time).getD 0

/-- The `total_invoices` count of the summary, default 1. -/
def totalOf (ph : PaymentHistory) : ℚ :=
  ((ph.transaction_summary.getD ⟨none, none⟩).total_invoices).getD 1

/-- `repayment_score` as computed at `src/pay_opti.py:556`. -/
def repaymentScore (ph : PaymentHistory) : ℚ :=
  if 0 < totalOf ph then onTimeOf ph / totalOf ph * 100 else 50

/-! ## Business value

Embedding of `PayOptiSystem.calculate_enhanced_business_value`
(`src/pay_opti.py:603-698`).  The three dictionary-table lookups
(`business_impact_multiplier` from the strategic classification table,
`market_multiplier` from the market-position table, and `wacc`) are passed
in as the values those lookups produce; the arithmetic on them is embedded
verbatim.  Dates are integer day counts, with `current_date` standing for
`datetime.now()` at invocation time, so that
`days_to_deadline = (issue_date + discount_days) - current_date`. -/

/-- The `BusinessValue` record (`src/pay_opti.py` dataclass `BusinessValue`). -/
structure BusinessValue where
  net_financial_benefit : ℚ
  business_impact_multiplier : ℚ
  relationship_multiplier : ℚ
  risk_multiplier : ℚ
  vrs_multiplier : ℚ
  urgency_multiplier : ℚ
  market_multiplier : ℚ
  final_business_value : ℚ
deriving DecidableEq, Repr

/-- `calculate_enhanced_business_value` (`src/pay_opti.py:603-698`). -/
def calculateEnhancedBusinessValue
    (invoice_amount : ℚ) (payment_terms : PaymentTerms) (wacc : ℚ)
    (business_impact_multiplier : ℚ) (years_as_vendor : ℚ) (risk_score : ℚ)
    (final_vrs : ℚ) (issue_date : ℤ) (current_date : ℤ)
    (market_multiplier : ℚ) : BusinessValue :=
  let discount_value := invoice_amount * (payment_terms.discount_rate / 100)
  let days_early : ℤ := max 0 (payment_terms.net_days - payment_terms.discount_days)
  let opportunity_cost := invoice_amount * (wacc / 365) * (days_early : ℚ)
  let net_financial_benefit := max 0 (discount_value - opportunity_cost)
  let relationship_multiplier := min 2 (1 + years_as_vendor / 10)
  let risk_multiplier : ℚ :=
    if risk_score ≤ 20 then 6/5
    else if risk_score ≤ 40 then 1
    else if risk_score ≤ 60 then 17/20
    else if risk_score ≤ 80 then 7/10
    else 1/2
  let vrs_multiplier := 4/5 + (final_vrs / 100) * (2/5)
  let days_to_deadline : ℤ := (issue_date + payment_terms.discount_days) - current_date
  let urgency_multiplier : ℚ :=
    if days_to_deadline ≤ 0 then 0
    else if days_to_deadline ≤ 3 then 3/2
    else if days_to_deadline ≤ 7 then 6/5
    else if days_to_deadline ≤ 14 then 11/10
    else 1
  { net_financial_benefit := net_financial_benefit
    business_impact_multiplier := business_impact_multiplier
    relationship_multiplier := relationship_multiplier
    risk_multiplier := risk_multiplier
    vrs_multiplier := vrs_multiplier
    urgency_multiplier := urgency_multiplier
    market_multiplier := market_multiplier
    final_business_value :=
      net_financial_benefit * business_impact_multiplier * relationship_multiplier *
        risk_multiplier * vrs_multiplier * urgency_multiplier * market_multiplier }

/-! ## Allocator

Embedding of the allocation part of `PayOptiSystem.generate_payment_sequence`
(`src/pay_opti.py:700-820`): compute `usable_cash`, stable-sort the scored
invoices by `final_business_value` descending (Python's `sorted` with
`reverse=True` is stable, so we model it by the stable `insertionSort` with
the reflexive "greater or equal business value" relation), then walk the
sorted list once, scheduling an invoice iff `remaining_cash >= amount`.
String fields of an entry that are free text for display (`vendor_name`,
`reasoning`, the AI classification fields) are carried through unmodified
where the claims need them and omitted otherwise. -/

/-- The invoice input record (fields read by the allocator). -/
structure Invoice where
  invoice_id : String
  vendor_id : String
  invoice_amount : ℚ
  issue_date : ℤ
  due_date : ℤ
deriving DecidableEq, Repr

/-- The `VRSComponents` record (`src/pay_opti.py` dataclass `VRSComponents`). -/
structure VRSComponents where
  hard_factors_score : ℚ
  soft_factors_score : ℚ
  final_vrs : ℚ
  total_value_score : ℚ
  repayment_score : ℚ
  longevity_score : ℚ
  reliability_score : ℚ
  communication_score : ℚ
deriving DecidableEq, Repr

/-- One element of `scored_invoices` (`src/pay_opti.py:753-761`). -/
structure ScoredInvoice where
  invoice : Invoice
  vendor_id : String
  vendor_name : String
  payment_terms : PaymentTerms
  vrs_components : VRSComponents
  business_value : BusinessValue
deriving DecidableEq, Repr

/-- One element of `payment_sequence` (`src/pay_opti.py:784-818`);
`payment_timing` is the computed payment date as a day count. -/
structure PaymentSequenceEntry where
  position : ℕ
  vendor_id : String
  vendor_name : String
  invoice_id : String
  amount : ℚ
  business_value : ℚ
  vrs_score : ℚ
  discount_rate : ℚ
  discount_captured : ℚ
  payment_timing : ℤ
  status : String
deriving DecidableEq, Repr

/-- Sort relation used at `src/pay_opti.py:764-766`: `a` may come before `b`
when the final business value of `a` is at least that of `b`. -/
def scoreGe (a b : ScoredInvoice) : Prop :=
  b.business_value.final_business_value ≤ a.business_value.final_business_value

instance : DecidableRel scoreGe := fun a b =>
  inferInstanceAs (Decidable (b.business_value.final_business_value ≤
    a.business_value.final_business_value))

instance : IsTotal ScoredInvoice scoreGe :=
  ⟨fun a b => le_total b.business_value.final_business_value
    a.business_value.final_business_value⟩

instance : IsTrans ScoredInvoice scoreGe :=
  ⟨fun _ _ _ h1 h2 => le_trans h2 h1⟩

/-- `sorted(scored_invoices, key=..final_business_value, reverse=True)`
(`src/pay_opti.py:764-766`): Python's sort is stable, and a stable sort is
determined by its ordering, so the stable `insertionSort` is its model. -/
def sortInvoices (l : List ScoredInvoice) : List ScoredInvoice :=
  l.insertionSort scoreGe

/-- The scheduled entry built at `src/pay_opti.py:784-799` for loop index `i`. -/
def mkScheduled (i : ℕ) (s : ScoredInvoice) : PaymentSequenceEntry :=
  { position := i + 1
    vendor_id := s.vendor_id
    vendor_name := s.vendor_name
    invoice_id := s.invoice.invoice_id
    amount := s.invoice.invoice_amount
    business_value := s.business_value.final_business_value
    vrs_score := s.vrs_components.final_vrs
    discount_rate := s.payment_terms.discount_rate
    discount_captured := s.invoice.invoice_amount * (s.payment_terms.discount_rate / 100)
    payment_timing := s.invoice.issue_date + (s.payment_terms.discount_days - 1)
    status := "scheduled" }

/-- The deferred entry built at `src/pay_opti.py:805-818` for loop index `i`. -/
def mkDeferred (i : ℕ) (s : ScoredInvoice) : PaymentSequenceEntry :=
  { position := i + 1
    vendor_id := s.vendor_id
    vendor_name := s.vendor_name
    invoice_id := s.invoice.invoice_id
    amount := s.invoice.invoice_amount
    business_value := s.business_value.final_business_value
    vrs_score := s.vrs_components.final_vrs
    discount_rate := s.payment_terms.discount_rate
    discount_captured := 0
    payment_timing := s.invoice.due_date
    status := "deferred" }

/-- The admission loop at `src/pay_opti.py:769-820`: walk the sorted list
with loop index `i`, scheduling when `remaining_cash >= invoice_amount`
(and then subtracting the amount), deferring otherwise. -/
def allocatePass (remaining : ℚ) (i : ℕ) : List ScoredInvoice → List PaymentSequenceEntry
  | [] => []
  | s :: rest =>
    if s.invoice.invoice_amount ≤ remaining then
      mkScheduled i s :: allocatePass (remaining - s.invoice.invoice_amount) (i + 1) rest
    else
      mkDeferred i s :: allocatePass remaining (i + 1) rest

/-- The remaining cash after the loop has consumed the given prefix of the
sorted list (same recurrence as the loop, without building entries). -/
def remainingAfter (cash : ℚ) : List ScoredInvoice → ℚ
  | [] => cash
  | s :: rest =>
    remainingAfter
      (if s.invoice.invoice_amount ≤ cash then cash - s.invoice.invoice_amount else cash) rest

/-- Sort then run the admission loop with the given usable-cash budget. -/
def allocateSequence (usable_cash : ℚ) (invs : List ScoredInvoice) :
    List PaymentSequenceEntry :=
  allocatePass usable_cash 0 (sortInvoices invs)

/-- `usable_cash = available_cash - available_cash * reserve` as computed at
`src/pay_opti.py:713-716` (`minimum_reserve = available_cash * reserve`). -/
def usableCash (available_cash : ℚ) (reserve : ℚ) : ℚ :=
  available_cash - available_cash * reserve

/-- `generate_payment_sequence` restricted to its allocation output
(`src/pay_opti.py:700-820`). -/
def generatePaymentSequence (available_cash : ℚ) (reserve : ℚ)
    (invs : List ScoredInvoice) : List PaymentSequenceEntry :=
  allocateSequence (usableCash available_cash reserve) invs

/-- Sum of `amount` over entries with `status = "scheduled"`. -/
def scheduledAmountSum (l : List PaymentSequenceEntry) : ℚ :=
  ((l.filter (fun e => e.status = "scheduled")).map (fun e => e.amount)).sum

/-! ## Mode comparison

Embedding of `PayOptiSystem.compare_modes` (`src/pay_opti.py:1077-1109`).
The pipeline `generate_payment_sequence(mode)` may raise; we model it as an
`Except`-valued function supplied by the caller.  Each mode is recorded as a
`status`/payload record keyed by the mode name, exactly as the Python loop
builds `mode_results`. -/

/-- One value of the `mode_results` mapping. -/
structure ModeRunRecord (α : Type) where
  status : String
  results : Option α
  errMsg : Option String
deriving DecidableEq, Repr

/-- `compare_modes` (`src/pay_opti.py:1077-1096`): every requested mode is
processed; a raising pipeline is caught and recorded with status
`"failed"` and its message, a normal return with status `"success"`. -/
def compareModes {α : Type} (run : String → Except String α) (modes : List String) :
    List (String × ModeRunRecord α) :=
  modes.map (fun mode =>
    (mode,
      match run mode with
      | Except.ok r => ⟨"success", some r, none⟩
      | Except.error e => ⟨"failed", none, some e⟩))

/-! ## Concrete sample data (used to instantiate the theorems) -/

/-- A business-value record whose final value is `v` and whose multipliers
are all 1. -/
def sampleBusinessValue (v : ℚ) : BusinessValue := ⟨v, 1, 1, 1, 1, 1, 1, v⟩

/-- A neutral VRS record. -/
def sampleVrsComponents : VRSComponents := ⟨50, 50, 50, 50, 50, 50, 50, 50⟩

/-- A scored invoice of the given id, amount and final business value. -/
def sampleScored (id : String) (amount bv : ℚ) : ScoredInvoice :=
  { invoice := ⟨id, "V-" ++ id, amount, 0, 30⟩
    vendor_id := "V-" ++ id
    vendor_name := "Vendor " ++ id
    payment_terms := ⟨"early_discount", 2, 10, 30, 0, 7/10⟩
    vrs_components := sampleVrsComponents
    business_value := sampleBusinessValue bv }

/-- The spec's two-invoice scenario: both cost 100,000, A outranks B. -/
def invsSample : List ScoredInvoice :=
  [sampleScored "A" 100000 500, sampleScored "B" 100000 300]

/-- A pipeline that raises on mode `"aggressive"` and succeeds elsewhere. -/
def runSample : String → Except String Unit := fun m =>
  if m = "aggressive" then Except.error "boom" else Except.ok ()

/-- A three-mode batch containing the raising mode. -/
def modesSample : List String := ["balanced", "aggressive", "conservative"]

/-! ## Helper lemmas about the allocator -/

theorem allocatePass_length (s : List ScoredInvoice) :
    ∀ (cash : ℚ) (i : ℕ), (allocatePass cash i s).length = s.length := by
  induction s with
  | nil => intro cash i; rfl
  | cons x rest ih =>
    intro cash i
    by_cases h : x.invoice.invoice_amount ≤ cash <;>
      simp [allocatePass, h, ih]

theorem sortInvoices_perm (l : List ScoredInvoice) : List.Perm (sortInvoices l) l :=
  List.perm_insertionSort scoreGe l

theorem sortInvoices_pairwise (l : List ScoredInvoice) :
    (sortInvoices l).Pairwise scoreGe :=
  List.sorted_insertionSort scoreGe l

/-- Inserting `a` with `orderedInsert` commutes with filtering on a fixed
business value: all elements `orderedInsert` passes over have strictly
larger business value than `a`, so among elements of any one business
value, `a` lands first — exactly where `a :: m` puts it. -/
theorem filter_key_orderedInsert (q : ℚ) (a : ScoredInvoice) (m : List ScoredInvoice) :
    (m.orderedInsert scoreGe a).filter
        (fun x => decide (x.business_value.final_business_value = q))
      = (a :: m).filter (fun x => decide (x.business_value.final_business_value = q)) := by
  induction m with
  | nil => rfl
  | cons b m ih =>
    by_cases h : scoreGe a b
    · simp [List.orderedInsert, h]
    · have hab : a.business_value.final_business_value <
          b.business_value.final_business_value := lt_of_not_le h
      simp only [List.orderedInsert, if_neg h]
      by_cases hb : b.business_value.final_business_value = q
      · have ha : ¬ a.business_value.final_business_value = q := by
          intro hq
          rw [hq, hb] at hab
          exact lt_irrefl q hab
        simp [List.filter_cons, hb, ha] at ih ⊢
        exact ih
      · simp [List.filter_cons, hb] at ih ⊢
        exact ih

/-- Stability of the model sort: for every fixed business value `q`, the
subsequence of invoices whose business value is `q` is unchanged, i.e.
ties keep their original input order. -/
theorem sortInvoices_filter_key (q : ℚ) (l : List ScoredInvoice) :
    (sortInvoices l).filter (fun x => decide (x.business_value.final_business_value = q))
      = l.filter (fun x => decide (x.business_value.final_business_value = q)) := by
  induction l with
  | nil => rfl
  | cons a l ih =>
    show ((List.insertionSort scoreGe l).orderedInsert scoreGe a).filter _ = _
    rw [filter_key_orderedInsert]
    by_cases ha : a.business_value.final_business_value = q
    · simpa [List.filter_cons, ha] using ih
    · simpa [List.filter_cons, ha] using ih

/-- Dropping `k` entries of the loop output continues the loop from the
remaining cash after the first `k` sorted invoices, with loop index `i + k`:
the loop maintains `remaining_cash` across the walk. -/
theorem allocatePass_drop (s : List ScoredInvoice) :
    ∀ (cash : ℚ) (i k : ℕ),
      (allocatePass cash i s).drop k
        = allocatePass (remainingAfter cash (s.take k)) (i + k) (s.drop k) := by
  induction s with
  | nil => intro cash i k; simp [allocatePass, remainingAfter]
  | cons x rest ih =>
    intro cash i k
    cases k with
    | zero => simp [remainingAfter]
    | succ k =>
      have harith : i + (k + 1) = (i + 1) + k := by omega
      by_cases h : x.invoice.invoice_amount ≤ cash <;>
        simp only [allocatePass, if_pos, if_neg, h, if_true, if_false,
          List.drop_succ_cons, List.take_succ_cons, remainingAfter, ite_true,
          ite_false, harith, ih]

theorem allocatePass_map_position (s : List ScoredInvoice) :
    ∀ (cash : ℚ) (i : ℕ),
      (allocatePass cash i s).map (fun e => e.position) = List.range' (i + 1) s.length := by
  induction s with
  | nil => intro cash i; rfl
  | cons x rest ih =>
    intro cash i
    by_cases h : x.invoice.invoice_amount ≤ cash <;>
      simp [allocatePass, h, mkScheduled, mkDeferred, ih, List.range']

theorem allocatePass_map_invoiceId (s : List ScoredInvoice) :
    ∀ (cash : ℚ) (i : ℕ),
      (allocatePass cash i s).map (fun e => e.invoice_id)
        = s.map (fun x => x.invoice.invoice_id) := by
  induction s with
  | nil => intro cash i; rfl
  | cons x rest ih =>
    intro cash i
    by_cases h : x.invoice.invoice_amount ≤ cash <;>
      simp [allocatePass, h, mkScheduled, mkDeferred, ih]

theorem scheduledAmountSum_nil : scheduledAmountSum [] = 0 := rfl

theorem scheduledAmountSum_cons (e : PaymentSequenceEntry) (l : List PaymentSequenceEntry) :
    scheduledAmountSum (e :: l)
      = if e.status = "scheduled" then e.amount + scheduledAmountSum l
        else scheduledAmountSum l := by
  by_cases h : e.status = "scheduled" <;>
    simp [scheduledAmountSum, List.filter_cons, h]

theorem scheduledAmountSum_cons_scheduled (i : ℕ) (x : ScoredInvoice)
    (l : List PaymentSequenceEntry) :
    scheduledAmountSum (mkScheduled i x :: l)
      = x.invoice.invoice_amount + scheduledAmountSum l := by
  simp [scheduledAmountSum_cons, mkScheduled]

theorem scheduledAmountSum_cons_deferred (i : ℕ) (x : ScoredInvoice)
    (l : List PaymentSequenceEntry) :
    scheduledAmountSum (mkDeferred i x :: l) = scheduledAmountSum l := by
  simp [scheduledAmountSum_cons, mkDeferred,
    show ("deferred" : String) ≠ "scheduled" by decide]

/-- Budget invariant of the admission loop: with a non-negative budget,
every prefix of the output has scheduled amounts summing to at most the
budget. -/
theorem allocatePass_take_le (s : List ScoredInvoice) :
    ∀ (cash : ℚ) (i k : ℕ), 0 ≤ cash →
      scheduledAmountSum ((allocatePass cash i s).take k) ≤ cash := by
  induction s with
  | nil =>
    intro cash i k hc
    simpa [allocatePass, scheduledAmountSum_nil] using hc
  | cons x rest ih =>
    intro cash i k hc
    cases k with
    | zero => simpa [scheduledAmountSum_nil] using hc
    | succ k =>
      by_cases h : x.invoice.invoice_amount ≤ cash
      · have hc' : 0 ≤ cash - x.invoice.invoice_amount := sub_nonneg.mpr h
        have hih := ih (cash - x.invoice.invoice_amount) (i + 1) k hc'
        calc scheduledAmountSum ((allocatePass cash i (x :: rest)).take (k + 1))
            = x.invoice.invoice_amount + scheduledAmountSum
                ((allocatePass (cash - x.invoice.invoice_amount) (i + 1) rest).take k) := by
              rw [show allocatePass cash i (x :: rest)
                  = mkScheduled i x
                    :: allocatePass (cash - x.invoice.invoice_amount) (i + 1) rest from
                    by rw [allocatePass, if_pos h],
                List.take_succ_cons, scheduledAmountSum_cons_scheduled]
          _ ≤ x.invoice.invoice_amount + (cash - x.invoice.invoice_amount) := by linarith
          _ = cash := by ring
      · have hih := ih cash (i + 1) k hc
        calc scheduledAmountSum ((allocatePass cash i (x :: rest)).take (k + 1))
            = scheduledAmountSum ((allocatePass cash (i + 1) rest).take k) := by
              rw [show allocatePass cash i (x :: rest)
                  = mkDeferred i x :: allocatePass cash (i + 1) rest from
                    by rw [allocatePass, if_neg h],
                List.take_succ_cons, scheduledAmountSum_cons_deferred]
          _ ≤ cash := hih

/-- With non-negative invoice amounts the scheduled prefix sums of the loop
output are non-decreasing in the prefix length. -/
theorem allocatePass_take_mono (s : List ScoredInvoice) :
    ∀ (cash : ℚ) (i k : ℕ),
      (∀ x ∈ s, 0 ≤ x.invoice.invoice_amount) →
      scheduledAmountSum ((allocatePass cash i s).take k)
        ≤ scheduledAmountSum ((allocatePass cash i s).take (k + 1)) := by
  induction s with
  | nil => intro cash i k _; simp [allocatePass]
  | cons x rest ih =>
    intro cash i k hx
    have hx0 : 0 ≤ x.invoice.invoice_amount := hx x (List.mem_cons_self x rest)
    have hxr : ∀ y ∈ rest, 0 ≤ y.invoice.invoice_amount :=
      fun y hy => hx y (List.mem_cons_of_mem x hy)
    by_cases h : x.invoice.invoice_amount ≤ cash
    · rw [show allocatePass cash i (x :: rest)
          = mkScheduled i x
            :: allocatePass (cash - x.invoice.invoice_amount) (i + 1) rest from
          by rw [allocatePass, if_pos h]]
      cases k with
      | zero =>
        simp only [List.take_zero, List.take_succ_cons, scheduledAmountSum_nil,
          scheduledAmountSum_cons_scheduled]
        have : (0:ℚ) ≤ scheduledAmountSum
            ((allocatePass (cash - x.invoice.invoice_amount) (i + 1) rest).take 0) := by
          simp [scheduledAmountSum_nil]
        simp only [List.take_zero, scheduledAmountSum_nil] at this ⊢
        linarith
      | succ k =>
        simp only [List.take_succ_cons, scheduledAmountSum_cons_scheduled]
        have := ih (cash - x.invoice.invoice_amount) (i + 1) k hxr
        linarith
    · rw [show allocatePass cash i (x :: rest)
          = mkDeferred i x :: allocatePass cash (i + 1) rest from
          by rw [allocatePass, if_neg h]]
      cases k with
      | zero =>
        simp [List.take_succ_cons, scheduledAmountSum_nil, scheduledAmountSum_cons_deferred]
      | succ k =>
        simp only [List.take_succ_cons, scheduledAmountSum_cons_deferred]
        exact ih cash (i + 1) k hxr

/-- Pointwise description of the admission loop's output: the `k`-th entry
is the scheduled entry exactly when the `k`-th invoice fits into the cash
remaining after the first `k` invoices have been processed, and the
deferred entry otherwise. -/
theorem allocatePass_getElemOpt (s : List ScoredInvoice) :
    ∀ (cash : ℚ) (i k : ℕ),
      (allocatePass cash i s)[k]?
        = s[k]?.map (fun inv =>
            if inv.invoice.invoice_amount ≤ remainingAfter cash (s.take k)
            then mkScheduled (i + k) inv
            else mkDeferred (i + k) inv) := by
  induction s with
  | nil => intro cash i k; simp [allocatePass]
  | cons x rest ih =>
    intro cash i k
    cases k with
    | zero =>
      by_cases h : x.invoice.invoice_amount ≤ cash <;>
        simp [allocatePass, h, remainingAfter]
    | succ k =>
      have harith : i + (k + 1) = (i + 1) + k := by omega
      by_cases h : x.invoice.invoice_amount ≤ cash
      · rw [show allocatePass cash i (x :: rest)
            = mkScheduled i x
              :: allocatePass (cash - x.invoice.invoice_amount) (i + 1) rest from
            by rw [allocatePass, if_pos h]]
        simp only [List.getElem?_cons_succ, List.take_succ_cons]
        simp only [show remainingAfter cash (x :: rest.take k)
            = remainingAfter (cash - x.invoice.invoice_amount) (rest.take k) from
            by rw [remainingAfter, if_pos h], harith]
        exact ih (cash - x.invoice.invoice_amount) (i + 1) k
      · rw [show allocatePass cash i (x :: rest)
            = mkDeferred i x :: allocatePass cash (i + 1) rest from
            by rw [allocatePass, if_neg h]]
        simp only [List.getElem?_cons_succ, List.take_succ_cons]
        simp only [show remainingAfter cash (x :: rest.take k)
            = remainingAfter cash (rest.take k) from
            by rw [remainingAfter, if_neg h], harith]
        exact ih cash (i + 1) k

/-- Pointwise description of the admission loop's output in `Fin`-indexed
form: the `k`-th entry is the scheduled entry exactly when the `k`-th
invoice fits into the cash remaining after the first `k` invoices were
processed, and the deferred entry otherwise. -/
theorem allocatePass_get (s : List ScoredInvoice) (cash : ℚ) (i k : ℕ)
    (hk : k < s.length) (hk2 : k < (allocatePass cash i s).length) :
    (allocatePass cash i s).get ⟨k, hk2⟩
      = if (s.get ⟨k, hk⟩).invoice.invoice_amount ≤ remainingAfter cash (s.take k)
        then mkScheduled (i + k) (s.get ⟨k, hk⟩)
        else mkDeferred (i + k) (s.get ⟨k, hk⟩) := by
  have h1 := allocatePass_getElemOpt s cash i k
  rw [List.getElem?_eq_getElem hk2, List.getElem?_eq_getElem hk] at h1
  rw [List.get_eq_getElem, List.get_eq_getElem]
  exact Option.some.inj h1

/-! ## Claim theorems -/

/-- C4: the deterministic fallback parser applied to `"3/15 net 45"`
returns exactly discount_rate 3, discount_days 15, net_days 45, payment
type `"early_discount"` and confidence 0.7 (late-fee rate 0). -/
theorem c4_fallback_parse_3_15_net_45 :
    fallbackPaymentTermsParse "3/15 net 45"
      = { payment_type := "early_discount", discount_rate := 3, discount_days := 15,
          net_days := 45, late_fee_rate := 0, confidence := 7/10 } := rfl

/-- C3 (code bug): on the discount-free input `"Net 30"` the fallback
parser does NOT degrade to the 0%-discount `net_term` default: the
discount regex matches inside the bare `30` (splitting it into `3` and
`0`), so the parser reports a spurious 3% early discount with
discount_days 0.  The net-day extraction itself still yields 30. -/
theorem c3_net_only_terms_spurious_discount :
    fallbackPaymentTermsParse "Net 30"
      = { payment_type := "early_discount", discount_rate := 3, discount_days := 0,
          net_days := 30, late_fee_rate := 0, confidence := 7/10 } ∧
    (fallbackPaymentTermsParse "Net 30").discount_rate ≠ 0 ∧
    (fallbackPaymentTermsParse "Net 30").payment_type ≠ "net_term" := by
  have h : fallbackPaymentTermsParse "Net 30"
      = { payment_type := "early_discount", discount_rate := 3, discount_days := 0,
          net_days := 30, late_fee_rate := 0, confidence := 7/10 } := rfl
  refine ⟨h, ?_, ?_⟩
  · rw [h]; norm_num
  · rw [h]; decide

/-- C9: a payment history with no `transaction_summary` mapping at all
yields repayment_score 0 (the absent total defaults to 1 and the absent
on-time count to 0), not the neutral 50 used when `total_invoices` is
explicitly 0. -/
theorem c9_missing_transaction_summary_score_zero :
    repaymentScore ⟨none⟩ = 0 ∧
    totalOf ⟨none⟩ = 1 ∧
    onTimeOf ⟨none⟩ = 0 ∧
    repaymentScore ⟨some ⟨none, some 0⟩⟩ = 50 := by
  refine ⟨by norm_num [repaymentScore, onTimeOf, totalOf], rfl, rfl,
    by norm_num [repaymentScore, onTimeOf, totalOf]⟩

/-- C7 counterexample: a vendor record whose `transaction_summary` reports
5 on-time invoices out of 2 total produces repayment_score 250, outside
`[0,100]` — the claim's unconditional range bound fails on the code. -/
theorem c7_repayment_score_range_counterexample :
    repaymentScore ⟨some ⟨some 5, some 2⟩⟩ = 250 ∧
    ¬ repaymentScore ⟨some ⟨some 5, some 2⟩⟩ ≤ 100 := by
  refine ⟨by norm_num [repaymentScore, onTimeOf, totalOf],
    by norm_num [repaymentScore, onTimeOf, totalOf]⟩

/-- C7 (amended): provided the record is consistent — the on-time count is
non-negative and at most the total — repayment_score lies in `[0,100]`;
it equals `on_time / total * 100` whenever the total is positive, and is
the neutral 50 when `total_invoices` is 0. -/
theorem c7_repayment_score_amended (ph : PaymentHistory)
    (h1 : 0 ≤ onTimeOf ph) (h2 : onTimeOf ph ≤ totalOf ph) :
    (0 ≤ repaymentScore ph ∧ repaymentScore ph ≤ 100) ∧
    (0 < totalOf ph → repaymentScore ph = onTimeOf ph / totalOf ph * 100) ∧
    (totalOf ph = 0 → repaymentScore ph = 50) := by
  by_cases hpos : 0 < totalOf ph
  · have hdiv0 : 0 ≤ onTimeOf ph / totalOf ph := div_nonneg h1 (le_of_lt hpos)
    have hdiv1 : onTimeOf ph / totalOf ph ≤ 1 := (div_le_one hpos).mpr h2
    have hval : repaymentScore ph = onTimeOf ph / totalOf ph * 100 := by
      rw [repaymentScore, if_pos hpos]
    refine ⟨⟨?_, ?_⟩, fun _ => hval, fun h0 => absurd (h0 ▸ hpos) (lt_irrefl 0)⟩
    · rw [hval]; positivity
    · rw [hval]; nlinarith
  · have hval : repaymentScore ph = 50 := by rw [repaymentScore, if_neg hpos]
    exact ⟨⟨by rw [hval]; norm_num, by rw [hval]; norm_num⟩,
      fun hp => absurd hp hpos, fun _ => hval⟩

/-- C7 amended-claim witness at a consistent record: 3 on-time of 4. -/
theorem c7_repayment_score_amended_witness :
    (0 ≤ repaymentScore ⟨some ⟨some 3, some 4⟩⟩ ∧
      repaymentScore ⟨some ⟨some 3, some 4⟩⟩ ≤ 100) ∧
    repaymentScore ⟨some ⟨some 3, some 4⟩⟩ = 75 := by
  have h := c7_repayment_score_amended ⟨some ⟨some 3, some 4⟩⟩
    (by norm_num [onTimeOf]) (by norm_num [onTimeOf, totalOf])
  exact ⟨h.1, by norm_num [repaymentScore, onTimeOf, totalOf]⟩

/-- C5: with discount_rate 0 (and non-negative amount and wacc) the
net financial benefit is 0 and hence the final business value is 0; and
in general the net financial benefit is never negative. -/
theorem c5_zero_discount_rate_zero_benefit
    (invoice_amount : ℚ) (payment_terms : PaymentTerms) (wacc bi years risk vrs : ℚ)
    (issue current : ℤ) (mkt : ℚ)
    (hrate : payment_terms.discount_rate = 0)
    (hamt : 0 ≤ invoice_amount) (hwacc : 0 ≤ wacc) :
    (calculateEnhancedBusinessValue invoice_amount payment_terms wacc bi years risk
        vrs issue current mkt).net_financial_benefit = 0 ∧
    (calculateEnhancedBusinessValue invoice_amount payment_terms wacc bi years risk
        vrs issue current mkt).final_business_value = 0 ∧
    (∀ (a2 : ℚ) (pt2 : PaymentTerms) (w2 bi2 y2 r2 v2 : ℚ) (i2 c2 : ℤ) (m2 : ℚ),
      0 ≤ (calculateEnhancedBusinessValue a2 pt2 w2 bi2 y2 r2 v2 i2 c2 m2).net_financial_benefit) := by
  have hde : (0:ℚ) ≤ ((max 0 (payment_terms.net_days - payment_terms.discount_days) : ℤ) : ℚ) := by
    exact_mod_cast le_max_left 0 (payment_terms.net_days - payment_terms.discount_days)
  have hoc : 0 ≤ invoice_amount * (wacc / 365) *
      ((max 0 (payment_terms.net_days - payment_terms.discount_days) : ℤ) : ℚ) :=
    mul_nonneg (mul_nonneg hamt (div_nonneg hwacc (by norm_num))) hde
  have key : max 0 (invoice_amount * (payment_terms.discount_rate / 100)
      - invoice_amount * (wacc / 365) *
          ((max 0 (payment_terms.net_days - payment_terms.discount_days) : ℤ) : ℚ)) = 0 := by
    apply max_eq_left
    rw [hrate]
    have h0 : invoice_amount * ((0:ℚ) / 100) = 0 := by ring
    rw [h0]
    linarith
  refine ⟨?_, ?_, ?_⟩
  · simp only [calculateEnhancedBusinessValue, key]
  · simp only [calculateEnhancedBusinessValue, key, zero_mul]
  · intro a2 pt2 w2 bi2 y2 r2 v2 i2 c2 m2
    simp only [calculateEnhancedBusinessValue]
    exact le_max_left 0 _

/-- C5 witness: a concrete invoice with 0% discount terms has zero net
financial benefit and zero final business value. -/
theorem c5_zero_discount_rate_zero_benefit_witness :
    (calculateEnhancedBusinessValue 1000 ⟨"net_term", 0, 0, 30, 0, 7/10⟩ (2/25)
        (3/2) 5 50 75 0 0 1).net_financial_benefit = 0 ∧
    (calculateEnhancedBusinessValue 1000 ⟨"net_term", 0, 0, 30, 0, 7/10⟩ (2/25)
        (3/2) 5 50 75 0 0 1).final_business_value = 0 := by
  have h := c5_zero_discount_rate_zero_benefit 1000 ⟨"net_term", 0, 0, 30, 0, 7/10⟩
    (2/25) (3/2) 5 50 75 0 0 1 rfl (by norm_num) (by norm_num)
  exact ⟨h.1, h.2.1⟩

/-- C6: when `days_to_deadline = (issue_date + discount_days) - current_date`
is not positive, the urgency multiplier is 0 and the final business value
is 0, whatever the other inputs and multipliers are. -/
theorem c6_expired_deadline_zero_value
    (invoice_amount : ℚ) (payment_terms : PaymentTerms) (wacc bi years risk vrs : ℚ)
    (issue current : ℤ) (mkt : ℚ)
    (hd : (issue + payment_terms.discount_days) - current ≤ 0) :
    (calculateEnhancedBusinessValue invoice_amount payment_terms wacc bi years risk
        vrs issue current mkt).urgency_multiplier = 0 ∧
    (calculateEnhancedBusinessValue invoice_amount payment_terms wacc bi years risk
        vrs issue current mkt).final_business_value = 0 := by
  constructor
  · simp only [calculateEnhancedBusinessValue]
    rw [if_pos hd]
  · simp only [calculateEnhancedBusinessValue]
    rw [if_pos hd]
    ring

/-- C6 witness: the spec scenario — 250,000 at 2.5%/10 net 30, wacc 0.08,
evaluated on the day the discount deadline expires — yields urgency
multiplier 0 and final business value 0. -/
theorem c6_expired_deadline_zero_value_witness :
    (calculateEnhancedBusinessValue 250000 ⟨"early_discount", 5/2, 10, 30, 0, 7/10⟩
        (2/25) (3/2) 5 50 75 0 10 1).urgency_multiplier = 0 ∧
    (calculateEnhancedBusinessValue 250000 ⟨"early_discount", 5/2, 10, 30, 0, 7/10⟩
        (2/25) (3/2) 5 50 75 0 10 1).final_business_value = 0 :=
  c6_expired_deadline_zero_value 250000 ⟨"early_discount", 5/2, 10, 30, 0, 7/10⟩
    (2/25) (3/2) 5 50 75 0 10 1 (by norm_num)

/-- C1: with a non-negative available balance, a reserve ratio in `[0,1]`
and non-negative invoice amounts, the cumulative sum of scheduled amounts
over any prefix of the output sequence stays within
`usable_cash = available_cash - reserve`, and is non-decreasing as entries
are appended in output order. -/
theorem c1_scheduled_sum_within_usable_cash
    (available_cash reserve : ℚ) (invs : List ScoredInvoice) (k : ℕ)
    (ha : 0 ≤ available_cash) ( _hr0 : 0 ≤ reserve) (hr1 : reserve ≤ 1)
    (hamt : ∀ s ∈ invs, 0 ≤ s.invoice.invoice_amount) :
    scheduledAmountSum ((generatePaymentSequence available_cash reserve invs).take k)
        ≤ usableCash available_cash reserve ∧
      scheduledAmountSum ((generatePaymentSequence available_cash reserve invs).take k)
        ≤ scheduledAmountSum
            ((generatePaymentSequence available_cash reserve invs).take (k + 1)) := by
  have hcash : 0 ≤ usableCash available_cash reserve := by
    have heq : usableCash available_cash reserve = available_cash * (1 - reserve) := by
      rw [usableCash]; ring
    rw [heq]
    exact mul_nonneg ha (by linarith)
  have hmem : ∀ x ∈ sortInvoices invs, 0 ≤ x.invoice.invoice_amount := fun x hx =>
    hamt x ((sortInvoices_perm invs).mem_iff.mp hx)
  exact ⟨allocatePass_take_le (sortInvoices invs) (usableCash available_cash reserve) 0 k hcash,
    allocatePass_take_mono (sortInvoices invs) (usableCash available_cash reserve) 0 k hmem⟩

/-- C1 witness: 187,500 available at a 20% reserve (usable 150,000) over
the two-invoice sample, at prefix length 1. -/
theorem c1_scheduled_sum_within_usable_cash_witness :
    scheduledAmountSum ((generatePaymentSequence 187500 (1/5) invsSample).take 1)
        ≤ usableCash 187500 (1/5) ∧
      scheduledAmountSum ((generatePaymentSequence 187500 (1/5) invsSample).take 1)
        ≤ scheduledAmountSum ((generatePaymentSequence 187500 (1/5) invsSample).take 2) :=
  c1_scheduled_sum_within_usable_cash 187500 (1/5) invsSample 1
    (by norm_num) (by norm_num) (by norm_num)
    (by
      intro s hs
      fin_cases hs <;> norm_num [sampleScored])

theorem invsSample_sort_length : (sortInvoices invsSample).length = 2 :=
  (sortInvoices_perm invsSample).length_eq

theorem invsSample_alloc_length :
    (allocateSequence 150000 invsSample).length = 2 := by
  show (allocatePass 150000 0 (sortInvoices invsSample)).length = 2
  rw [allocatePass_length]
  exact invsSample_sort_length

/-- C2: the allocator walks the stable-descending sort of the scored
invoices (a permutation of the input, pairwise non-increasing in final
business value, with equal-valued invoices kept in input order), and the
`k`-th output entry is scheduled exactly when the `k`-th sorted invoice
fits into the remaining cash at its turn; a scheduled entry captures
`amount * discount_rate / 100` and is timed at
`issue_date + (discount_days - 1)`, a deferred entry is timed at the due
date with no discount captured. -/
theorem c2_greedy_walk_sorted_stable (cash : ℚ) (invs : List ScoredInvoice) (q : ℚ)
    (k : ℕ) (hk : k < (sortInvoices invs).length)
    (hk2 : k < (allocateSequence cash invs).length) :
    List.Perm (sortInvoices invs) invs ∧
    (sortInvoices invs).Pairwise scoreGe ∧
    ((sortInvoices invs).filter
        (fun x => decide (x.business_value.final_business_value = q))
      = invs.filter (fun x => decide (x.business_value.final_business_value = q))) ∧
    (((allocateSequence cash invs).get ⟨k, hk2⟩).status = "scheduled"
      ↔ ((sortInvoices invs).get ⟨k, hk⟩).invoice.invoice_amount
          ≤ remainingAfter cash ((sortInvoices invs).take k)) ∧
    (((sortInvoices invs).get ⟨k, hk⟩).invoice.invoice_amount
        ≤ remainingAfter cash ((sortInvoices invs).take k) →
      ((allocateSequence cash invs).get ⟨k, hk2⟩).discount_captured
          = ((sortInvoices invs).get ⟨k, hk⟩).invoice.invoice_amount
            * (((sortInvoices invs).get ⟨k, hk⟩).payment_terms.discount_rate / 100) ∧
        ((allocateSequence cash invs).get ⟨k, hk2⟩).payment_timing
          = ((sortInvoices invs).get ⟨k, hk⟩).invoice.issue_date
            + (((sortInvoices invs).get ⟨k, hk⟩).payment_terms.discount_days - 1) ∧
        ((allocateSequence cash invs).get ⟨k, hk2⟩).amount
          = ((sortInvoices invs).get ⟨k, hk⟩).invoice.invoice_amount) ∧
    (¬ ((sortInvoices invs).get ⟨k, hk⟩).invoice.invoice_amount
        ≤ remainingAfter cash ((sortInvoices invs).take k) →
      ((allocateSequence cash invs).get ⟨k, hk2⟩).status = "deferred" ∧
        ((allocateSequence cash invs).get ⟨k, hk2⟩).payment_timing
          = ((sortInvoices invs).get ⟨k, hk⟩).invoice.due_date ∧
        ((allocateSequence cash invs).get ⟨k, hk2⟩).discount_captured = 0 ∧
        ((allocateSequence cash invs).get ⟨k, hk2⟩).amount
          = ((sortInvoices invs).get ⟨k, hk⟩).invoice.invoice_amount) := by
  have hget : (allocateSequence cash invs).get ⟨k, hk2⟩
      = if ((sortInvoices invs).get ⟨k, hk⟩).invoice.invoice_amount
            ≤ remainingAfter cash ((sortInvoices invs).take k)
        then mkScheduled (0 + k) ((sortInvoices invs).get ⟨k, hk⟩)
        else mkDeferred (0 + k) ((sortInvoices invs).get ⟨k, hk⟩) :=
    allocatePass_get (sortInvoices invs) cash 0 k hk hk2
  refine ⟨sortInvoices_perm invs, sortInvoices_pairwise invs,
    sortInvoices_filter_key q invs, ?_, ?_, ?_⟩
  · by_cases h : ((sortInvoices invs).get ⟨k, hk⟩).invoice.invoice_amount
        ≤ remainingAfter cash ((sortInvoices invs).take k)
    · rw [hget, if_pos h]
      exact iff_of_true rfl h
    · rw [hget, if_neg h]
      refine iff_of_false ?_ h
      intro hcontra
      have hstr : ("deferred" : String) = "scheduled" := hcontra
      exact absurd hstr (by decide)
  · intro h
    rw [hget, if_pos h]
    exact ⟨rfl, rfl, rfl⟩
  · intro h
    rw [hget, if_neg h]
    exact ⟨rfl, rfl, rfl, rfl⟩

/-- C2 witness: the spec scenario — budget 150,000, two 100,000 invoices
with A outranking B — instantiated at index 1. -/
theorem c2_greedy_walk_sorted_stable_witness :
    List.Perm (sortInvoices invsSample) invsSample ∧
    (((allocateSequence 150000 invsSample).get
          ⟨1, by rw [invsSample_alloc_length]; norm_num⟩).status = "scheduled"
      ↔ ((sortInvoices invsSample).get
            ⟨1, by rw [invsSample_sort_length]; norm_num⟩).invoice.invoice_amount
          ≤ remainingAfter 150000 ((sortInvoices invsSample).take 1)) := by
  have h := c2_greedy_walk_sorted_stable 150000 invsSample 500 1
    (by rw [invsSample_sort_length]; norm_num)
    (by rw [invsSample_alloc_length]; norm_num)
  exact ⟨h.1, h.2.2.2.1⟩

/-- C10: the output sequence has exactly one entry per input invoice (the
multiset of invoice ids is preserved), the `position` fields are exactly
`1, 2, …, n` in output order, and the `k`-th entry carries the `k`-th
invoice of the descending business-value order. -/
theorem c10_one_entry_per_invoice_positions (cash : ℚ) (invs : List ScoredInvoice)
    (k : ℕ) (hk : k < (sortInvoices invs).length)
    (hk2 : k < (allocateSequence cash invs).length) :
    (allocateSequence cash invs).length = invs.length ∧
    (allocateSequence cash invs).map (fun e => e.position)
      = List.range' 1 invs.length ∧
    List.Perm ((allocateSequence cash invs).map (fun e => e.invoice_id))
      (invs.map (fun x => x.invoice.invoice_id)) ∧
    ((allocateSequence cash invs).get ⟨k, hk2⟩).position = k + 1 ∧
    ((allocateSequence cash invs).get ⟨k, hk2⟩).invoice_id
      = ((sortInvoices invs).get ⟨k, hk⟩).invoice.invoice_id := by
  have hget : (allocateSequence cash invs).get ⟨k, hk2⟩
      = if ((sortInvoices invs).get ⟨k, hk⟩).invoice.invoice_amount
            ≤ remainingAfter cash ((sortInvoices invs).take k)
        then mkScheduled (0 + k) ((sortInvoices invs).get ⟨k, hk⟩)
        else mkDeferred (0 + k) ((sortInvoices invs).get ⟨k, hk⟩) :=
    allocatePass_get (sortInvoices invs) cash 0 k hk hk2
  refine ⟨?_, ?_, ?_, ?_, ?_⟩
  · show (allocatePass cash 0 (sortInvoices invs)).length = invs.length
    rw [allocatePass_length]
    exact (sortInvoices_perm invs).length_eq
  · show (allocatePass cash 0 (sortInvoices invs)).map (fun e => e.position) = _
    rw [allocatePass_map_position, (sortInvoices_perm invs).length_eq]
  · show List.Perm
      ((allocatePass cash 0 (sortInvoices invs)).map (fun e => e.invoice_id)) _
    rw [allocatePass_map_invoiceId]
    exact (sortInvoices_perm invs).map (fun x => x.invoice.invoice_id)
  · rw [hget]
    by_cases h : ((sortInvoices invs).get ⟨k, hk⟩).invoice.invoice_amount
        ≤ remainingAfter cash ((sortInvoices invs).take k)
    · rw [if_pos h]
      show 0 + k + 1 = k + 1
      omega
    · rw [if_neg h]
      show 0 + k + 1 = k + 1
      omega
  · rw [hget]
    by_cases h : ((sortInvoices invs).get ⟨k, hk⟩).invoice.invoice_amount
        ≤ remainingAfter cash ((sortInvoices invs).take k)
    · rw [if_pos h]
      rfl
    · rw [if_neg h]
      rfl

/-- C10 witness: the two-invoice sample at budget 150,000, index 0. -/
theorem c10_one_entry_per_invoice_positions_witness :
    (allocateSequence 150000 invsSample).length = invsSample.length ∧
    (allocateSequence 150000 invsSample).map (fun e => e.position)
      = List.range' 1 invsSample.length ∧
    ((allocateSequence 150000 invsSample).get
        ⟨0, by rw [invsSample_alloc_length]; norm_num⟩).position = 1 := by
  have h := c10_one_entry_per_invoice_positions 150000 invsSample 0
    (by rw [invsSample_sort_length]; norm_num)
    (by rw [invsSample_alloc_length]; norm_num)
  exact ⟨h.1, h.2.1, h.2.2.2.1⟩

/-- C8: a raising pipeline does not abort the batch — every requested mode
still gets an entry (in order), the raising mode is recorded with status
`"failed"` and its message, and every mode's record carries a `"success"`
or `"failed"` status. -/
theorem c8_compare_modes_failure_isolated {α : Type}
    (run : String → Except String α) (modes : List String) (m e : String)
    (hm : m ∈ modes) (he : run m = Except.error e) :
    ((compareModes run modes).map Prod.fst = modes) ∧
    (∀ p ∈ compareModes run modes, p.1 = m →
      p.2.status = "failed" ∧ p.2.errMsg = some e) ∧
    (∀ m2 ∈ modes, ∃ p ∈ compareModes run modes,
      p.1 = m2 ∧ (p.2.status = "success" ∨ p.2.status = "failed")) := by
  refine ⟨?_, ?_, ?_⟩
  · show (modes.map _).map Prod.fst = modes
    rw [List.map_map]
    exact List.map_id modes
  · intro p hp hpm
    simp only [compareModes, List.mem_map] at hp
    obtain ⟨mode, _hmode, rfl⟩ := hp
    have hmode_eq : mode = m := hpm
    subst hmode_eq
    rw [he]
    exact ⟨rfl, rfl⟩
  · intro m2 hm2
    cases hrun : run m2 with
    | ok r =>
      refine ⟨(m2, ⟨"success", some r, none⟩), ?_, rfl, Or.inl rfl⟩
      simp only [compareModes, List.mem_map]
      exact ⟨m2, hm2, by rw [hrun]⟩
    | error e2 =>
      refine ⟨(m2, ⟨"failed", none, some e2⟩), ?_, rfl, Or.inr rfl⟩
      simp only [compareModes, List.mem_map]
      exact ⟨m2, hm2, by rw [hrun]⟩

/-- C8 witness: the three-mode sample whose `"aggressive"` mode raises —
every mode still appears, in order. -/
theorem c8_compare_modes_failure_isolated_witness :
    (compareModes runSample modesSample).map Prod.fst = modesSample ∧
    ((compareModes runSample modesSample).get ⟨1, by simp [compareModes, modesSample]⟩).2.status
      = "failed" := by
  have H := c8_compare_modes_failure_isolated runSample modesSample "aggressive" "boom"
    (by simp [modesSample]) (by rfl)
  refine ⟨H.1, ?_⟩
  have hmem := List.get_mem (compareModes runSample modesSample) 1
    (by simp [compareModes, modesSample])
  exact (H.2.1 _ hmem rfl).1

end PayOpti
